import Mathlib

/-!
Verification development for the crown engine's entity/component core:
the runtime `UnitManager` generational-index allocator
(`src/world/unit_manager.cpp`) and the offline `UnitCompiler`
prefab-resolution and blob-assembly pipeline
(`src/resource/unit_compiler.h`).

The C++ is embedded shallowly: machine integers become `Nat` with explicit
`% 2 ^ w` where wrap-around matters, containers become `List`, the
`queue`/`array` operations become the corresponding list operations, and
stateful member functions become explicit state-passing functions.
-/

namespace Crown

/-! ## UnitManager (src/world/unit_manager.cpp)

`UnitId` is a `u32`; the sources build it in `UnitManager::make_unit` as
`0 | idx | u32(gen) << UNIT_INDEX_BITS`.  The accessor functions
`UnitId::index()` / `UnitId::id()` live in `world/types.h`, which is absent
from the sources, so they are modelled from the spec. -/

/-- From the source: `#define MINIMUM_FREE_INDICES 1024`. -/
def MINIMUM_FREE_INDICES : Nat := 1024

/-- Number of index bits of a `UnitId`.  The constant's definition is not in
the sources; the spec fixes it: a 32-bit value packed from a 24-bit `index`
and an 8-bit `generation`. -/
def UNIT_INDEX_BITS : Nat := 24

/-- Number of generation bits of a `UnitId` (spec: 8-bit `generation`). -/
def UNIT_ID_BITS : Nat := 8

/-- From the source (`UnitManager::make_unit`):
`UnitId id = { 0 | idx | u32(gen) << UNIT_INDEX_BITS }`. -/
def make_unit (idx gen : Nat) : Nat :=
  0 ||| idx ||| (gen <<< UNIT_INDEX_BITS)

/-- Modelled from the spec: `UnitId::index()` extracts the low 24 index bits
(`world/types.h` is absent from the sources; the spec says a `UnitId` is
packed from a 24-bit index and an 8-bit generation). -/
def unitIndex (id : Nat) : Nat := id % 2 ^ UNIT_INDEX_BITS

/-- Modelled from the spec: `UnitId::id()` extracts the 8 generation bits
above the 24 index bits. -/
def unitGen (id : Nat) : Nat := (id / 2 ^ UNIT_INDEX_BITS) % 2 ^ UNIT_ID_BITS

/-- A destroy subscription: `UnitManager::DestroyData` — a callback
(modelled as an opaque tag, the code stores a raw function pointer) plus the
opaque `user_data` context pointer. -/
structure DestroyData where
  destroy : Nat
  user_data : Nat
deriving DecidableEq

/-- One observed callback invocation: `trigger_destroy_callbacks` calls
`_destroy_callbacks[i].destroy(id, _destroy_callbacks[i].user_data)`. -/
structure DestroyEvent where
  fn : Nat
  id : Nat
  user_data : Nat
deriving DecidableEq

/-- The mutable state of a `UnitManager`: `_generation` (an array of `u8`
counters), `_free_indices` (a FIFO queue, front = list head) and
`_destroy_callbacks` (an array, registration order). -/
structure UnitManagerState where
  generation : List Nat
  free_indices : List Nat
  destroy_callbacks : List DestroyData
deriving DecidableEq

/-- `UnitManager::create()`: if the free queue holds more than
`MINIMUM_FREE_INDICES` entries, pop the front index and pack it with the
slot's current generation; otherwise append a fresh slot with generation 0
and use its index.  (The C++ asserts `idx < (1 << UNIT_INDEX_BITS)` in the
append branch; executions that would trip the fatal assert are excluded in
`Reach` below.) -/
def create (s : UnitManagerState) : UnitManagerState × Nat :=
  if MINIMUM_FREE_INDICES < s.free_indices.length then
    let idx := s.free_indices.headD 0
    let s' := { s with free_indices := s.free_indices.tail }
    (s', make_unit idx (s'.generation.getD idx 0))
  else
    let gens := s.generation ++ [0]
    let idx := gens.length - 1
    ({ s with generation := gens }, make_unit idx (gens.getD idx 0))

/-- `UnitManager::alive(id)`: `_generation[id.index()] == id.id()`.
The C++ array access is unchecked; it is modelled totally with `getD`
(claims only evaluate `alive` at in-bounds indices). -/
def alive (s : UnitManagerState) (id : Nat) : Bool :=
  s.generation.getD (unitIndex id) 0 == unitGen id

/-- `UnitManager::trigger_destroy_callbacks(id)`: invoke every registered
callback in array order with the id and its own context; the result is the
list of invocations, in order. -/
def trigger_destroy_callbacks (cbs : List DestroyData) (id : Nat) : List DestroyEvent :=
  match cbs with
  | [] => []
  | c :: rest => { fn := c.destroy, id := id, user_data := c.user_data } :: trigger_destroy_callbacks rest id

/-- `UnitManager::destroy(id)`: `++_generation[idx]` (a `u8`, wrapping mod
`2^8`), `queue::push_back(_free_indices, idx)`, then
`trigger_destroy_callbacks(id)`.  Returns the new state together with the
callback invocations performed. -/
def destroy (s : UnitManagerState) (id : Nat) : UnitManagerState × List DestroyEvent :=
  let idx := unitIndex id
  let s' := { s with
    generation := s.generation.set idx ((s.generation.getD idx 0 + 1) % 2 ^ UNIT_ID_BITS),
    free_indices := s.free_indices ++ [idx] }
  (s', trigger_destroy_callbacks s'.destroy_callbacks id)

/-- `UnitManager::register_destroy_function(fn, user_data)`:
`array::push_back(_destroy_callbacks, dd)`. -/
def register_destroy_function (s : UnitManagerState) (fn user_data : Nat) : UnitManagerState :=
  { s with destroy_callbacks := s.destroy_callbacks ++ [{ destroy := fn, user_data := user_data }] }

/-- Structural well-formedness of an allocator state: every free index is a
slot of the generation table, every generation counter is a `u8` value, and
the table never outgrows the 24-bit index space. -/
def WF (s : UnitManagerState) : Prop :=
  (∀ i ∈ s.free_indices, i < s.generation.length)
  ∧ (∀ g ∈ s.generation, g < 2 ^ UNIT_ID_BITS)
  ∧ s.generation.length ≤ 2 ^ UNIT_INDEX_BITS

instance (s : UnitManagerState) : Decidable (WF s) := by
  unfold WF; infer_instance

/-- States reachable by sequences of `create`/`destroy` calls from an empty
allocator (with any set of registered callbacks).  `destroy` is only invoked
on ids whose index is a slot of the table, as is the case for every id
previously returned by `create` (the spec: ids are created by the allocator
and never constructed by any other component).  A `create` that would trip
the fatal `CE_ASSERT("Indices out of bounds")` does not continue. -/
inductive Reach : UnitManagerState → Prop
  | init (cbs : List DestroyData) : Reach { generation := [], free_indices := [], destroy_callbacks := cbs }
  | step_create {s : UnitManagerState} (h : Reach s)
      (hok : MINIMUM_FREE_INDICES < s.free_indices.length ∨ s.generation.length < 2 ^ UNIT_INDEX_BITS) :
      Reach (create s).1
  | step_destroy {s : UnitManagerState} (id : Nat) (h : Reach s)
      (hidx : unitIndex id < s.generation.length) :
      Reach (destroy s id).1

/-- An operation performed on the allocator: one `create()` call or one
`destroy(id)` call. -/
inductive Op where
  | createOp : Op
  | destroyOp : Nat → Op
deriving DecidableEq

/-- The state transition of a single operation. -/
def stepOp (s : UnitManagerState) : Op → UnitManagerState
  | .createOp => (create s).1
  | .destroyOp id => (destroy s id).1

/-- Run a sequence of operations. -/
def steps (s : UnitManagerState) : List Op → UnitManagerState
  | [] => s
  | op :: rest => steps (stepOp s op) rest

/-- Number of destroy calls in a sequence that target slot `idx`. -/
def destroysAt (idx : Nat) : List Op → Nat
  | [] => 0
  | .createOp :: rest => destroysAt idx rest
  | .destroyOp id :: rest => (if unitIndex id = idx then 1 else 0) + destroysAt idx rest

/-- The empty allocator: fresh `UnitManager` with no callbacks registered. -/
def umInit : UnitManagerState :=
  { generation := [], free_indices := [], destroy_callbacks := [] }

/-! ## UnitCompiler (src/resource/unit_compiler.h)

Documents are modelled as already-parsed trees (the text parser is an
external collaborator per the spec): component ids (GUIDs) and type names
(`StringId32` hashes) become `Nat`, a component's `data` fragment is an
opaque `Nat` token handed to its type's compile function, and compile
functions (the per-type encoders, external per the spec) are arbitrary
functions returning encoded bytes or a compile error. -/

/-- Errors raised through `DATA_COMPILER_ASSERT` (which aborts the compile),
plus `outOfBoundsPrefabSlot`, this model's explicit marker for the C++
out-of-bounds access `prefabs[4]` (see `collect_go`). -/
inductive CompileError where
  | unknownComponent
  | resourceMissing
  | outOfBoundsPrefabSlot
  | encoderError
deriving DecidableEq

/-- `typedef Buffer (*CompileFunction)(const char* json, CompileOptions&)`:
an encoder takes the component's opaque `data` fragment and either returns
encoded bytes or aborts with a compile error. -/
def CompileFunction : Type := Nat → Except CompileError (List Nat)

/-- One entry of a unit document's `components` array:
`{ id : <guid>, type : string, data : <type-specific> }`. -/
structure ComponentJson where
  id : Nat
  ctype : Nat
  data : Nat
deriving DecidableEq, Inhabited

/-- A parsed unit document: optional `prefab` reference (an opaque resource
path), the `modified_components` map (keys are `"#<guid>"`; the marker
stripping and GUID parsing are the external parser's string handling,
modelled as the GUID value directly) and the `components` array. -/
structure UnitJson where
  prefab : Option Nat
  modified_components : List (Nat × ComponentJson)
  components : List ComponentJson
deriving DecidableEq, Inhabited

/-- `UnitCompiler::ComponentTypeData`: compile function, running instance
count `_num`, owner-index array `_unit_index` and accumulated payload
buffer `_data`. -/
structure ComponentTypeData where
  compiler : CompileFunction
  num : Nat
  unit_index : List Nat
  data : List Nat

/-- The default-constructed `ComponentTypeData(default_allocator())` used
by `sort_map::get` when a key is absent: zero count and empty buffers (its
`_compiler` is uninitialized in C++ and never invoked on that path; here a
failing function). -/
def defaultCTD : ComponentTypeData :=
  { compiler := fun _ => .error .encoderError, num := 0, unit_index := [], data := [] }

/-- The mutable state of a `UnitCompiler`: `_num_units`, `_component_info`
(the type listing the constructor builds, kept sorted by spawn order — the
claims depend only on the resulting order) and `_component_data` (the
`SortMap` from type hash to per-type data, modelled as an association
list). -/
structure UnitCompilerState where
  num_units : Nat
  component_info : List Nat
  component_data : List (Nat × ComponentTypeData)

/-- `sort_map` lookup: first entry with the given key. -/
def lookupAssoc : List (Nat × ComponentTypeData) → Nat → Option ComponentTypeData
  | [], _ => none
  | (k, v) :: rest, t => if k = t then some v else lookupAssoc rest t

/-- In-place update of the entry with the given key (used to model the
`const_cast` mutation in `add_component_data`); no entry, no change. -/
def updateAssoc (f : ComponentTypeData → ComponentTypeData) :
    List (Nat × ComponentTypeData) → Nat → List (Nat × ComponentTypeData)
  | [], _ => []
  | (k, v) :: rest, t => if k = t then (k, f v) :: rest else (k, v) :: updateAssoc f rest t

/-- `sort_map::get(_component_data, type, ComponentTypeData(...))`. -/
def lookupData (s : UnitCompilerState) (t : Nat) : ComponentTypeData :=
  (lookupAssoc s.component_data t).getD defaultCTD

/-- `UnitCompiler::compile_component`: assert the type is registered
(`DATA_COMPILER_ASSERT(..., "Unknown component")`), then run its compile
function on the `data` fragment. -/
def compile_component (s : UnitCompilerState) (t : Nat) (json : Nat) :
    Except CompileError (List Nat) :=
  match lookupAssoc s.component_data t with
  | none => .error .unknownComponent
  | some ctd => ctd.compiler json

/-- `UnitCompiler::add_component_data`: append the encoded bytes to the
type's `_data` buffer, append the owning unit index to `_unit_index`, and
increment `_num`. -/
def add_component_data (s : UnitCompilerState) (t : Nat) (data : List Nat) (unit_index : Nat) :
    UnitCompilerState :=
  let f : ComponentTypeData → ComponentTypeData := fun ctd =>
    { ctd with data := ctd.data ++ data, unit_index := ctd.unit_index ++ [unit_index],
               num := ctd.num + 1 }
  { s with component_data := updateAssoc f s.component_data t }

/-- Linear scan of `component_index`: running index `i` over the remaining
components. -/
def component_index_go (g : Nat) : List ComponentJson → Nat → Option Nat
  | [], _ => none
  | c :: rest, i => if c.id = g then some i else component_index_go g rest (i + 1)

/-- `component_index(components, id)`: index of the first component whose
`id` GUID matches, `UINT32_MAX` (here `none`) if there is none. -/
def component_index (components : List ComponentJson) (g : Nat) : Option Nat :=
  component_index_go g components 0

/-- The prefab-following loop of `compile_unit_from_json`:
`JsonObject prefabs[4]` with `prefabs[0]` the given document; for
`i = 0..3`, if `prefabs[i]` has a `prefab` field, assert the referenced unit
resource exists, read it and parse it into `prefabs[i+1]`.  `fuel` is the
number of slots from the current one to the end of the 4-element array; when
the current slot is `prefabs[3]` (`fuel = 1`) and a prefab is still present,
the C++ parses into `prefabs[4]` — an out-of-bounds write (undefined
behavior, no depth check): the model surfaces it as the distinguished
outcome `.outOfBoundsPrefabSlot`. -/
def collect_go (env : Nat → Option UnitJson) :
    UnitJson → List UnitJson → Nat → Except CompileError (List UnitJson)
  | _, acc, 0 => .ok acc
  | cur, acc, fuel + 1 =>
    match cur.prefab with
    | none => .ok acc
    | some path =>
      match env path with
      | none => .error .resourceMissing
      | some parent =>
        if fuel = 0 then .error .outOfBoundsPrefabSlot
        else collect_go env parent (acc ++ [parent]) fuel

/-- Collect the prefab chain `prefabs[0..num_prefabs-1]`, leaf (the given
document) first. -/
def collect_prefabs (env : Nat → Option UnitJson) (doc : UnitJson) :
    Except CompileError (List UnitJson) :=
  collect_go env doc [doc] 4

/-- The inner loop of the component merge: for every entry of a level's
`modified_components`, locate the target slot by scanning the root's
original (immutable) component array and overwrite that slot of the working
copy; a key with no match is silently dropped. -/
def apply_modified (original : List ComponentJson) :
    List ComponentJson → List (Nat × ComponentJson) → List ComponentJson
  | working, [] => working
  | working, (g, v) :: rest =>
    match component_index original g with
    | some idx => apply_modified original (working.set idx v) rest
    | none => apply_modified original working rest

/-- The merge of `compile_unit_from_json`: the root ancestor's `components`
array is the baseline; if the chain has more than one document, walk it
root-to-leaf (`prefabs[num_prefabs - i - 1]` for `i = 0..num_prefabs-1`)
applying each level's `modified_components` to the working copy, so the
leaf's overrides are applied last. -/
def merge_chain (chain : List UnitJson) : List ComponentJson :=
  let root := chain.getLastD default
  if 1 < chain.length then
    chain.reverse.foldl
      (fun working p => apply_modified root.components working p.modified_components)
      root.components
  else
    root.components

/-- The component loop of `compile_unit_from_json`: for each merged
component, compile it by type and append the result under the current
`_num_units`; a compile failure aborts, leaving the state as already
mutated by the preceding components. -/
def compile_components : UnitCompilerState → List ComponentJson →
    Except CompileError Unit × UnitCompilerState
  | s, [] => (.ok (), s)
  | s, c :: rest =>
    match compile_component s c.ctype c.data with
    | .error e => (.error e, s)
    | .ok buf => compile_components (add_component_data s c.ctype buf s.num_units) rest

/-- `UnitCompiler::compile_unit_from_json`: collect the prefab chain, merge
the component overrides, compile every merged component, then advance
`_num_units`. -/
def compile_unit_from_json (env : Nat → Option UnitJson) (s : UnitCompilerState)
    (doc : UnitJson) : Except CompileError Unit × UnitCompilerState :=
  match collect_prefabs env doc with
  | .error e => (.error e, s)
  | .ok chain =>
    match compile_components s (merge_chain chain) with
    | (.error e, s') => (.error e, s')
    | (.ok _, s') => (.ok (), { s' with num_units := s'.num_units + 1 })

/-- `UnitCompiler::compile_multiple_units`: compile each unit in sequence,
sharing the unit counter and the per-type accumulators. -/
def compile_multiple_units (env : Nat → Option UnitJson) :
    UnitCompilerState → List UnitJson → Except CompileError Unit × UnitCompilerState
  | s, [] => (.ok (), s)
  | s, d :: rest =>
    match compile_unit_from_json env s d with
    | (.error e, s') => (.error e, s')
    | (.ok _, s') => compile_multiple_units env s' rest

/-- Little-endian bytes of a `u32` (the blob stores structs and arrays by
raw `memcpy`; fixed-width fields in declaration order per the spec, byte
order a fixed modelling choice the claims do not depend on). -/
def u32le (n : Nat) : List Nat :=
  [n % 256, n / 256 % 256, n / 256 ^ 2 % 256, n / 256 ^ 3 % 256]

/-- Raw bytes of a `u32` array (the owner-index array push in `blob()`). -/
def bytesOfU32Array : List Nat → List Nat
  | [] => []
  | n :: rest => u32le n ++ bytesOfU32Array rest

/-- Modelled from the spec: the unit resource format version constant
(`RESOURCE_VERSION_UNIT` is defined outside the sources; its concrete
value is irrelevant to the claims). -/
def RESOURCE_VERSION_UNIT : Nat := 30

/-- The first loop of `blob()`: count the registered types whose instance
count is positive (iterates the `SortMap`). -/
def countNonemptyTypes : List (Nat × ComponentTypeData) → Nat
  | [] => 0
  | (_, ctd) :: rest => (if 0 < ctd.num then 1 else 0) + countNonemptyTypes rest

/-- One emitted section of `blob()`: the `ComponentData` sub-header
`{ type, num_instances, size }` (three `u32`s in declaration order, so
`alignof(cd) = 4`), with `cd.size = |data| + 4·|unit_index|` then
`pad = cd.size % alignof(cd)` and `cd.size += pad`; followed by the raw
owner-index array, the payload bytes, and `pad` zero bytes. -/
def sectionBytes (t : Nat) (ctd : ComponentTypeData) : List Nat :=
  let size0 := ctd.data.length + 4 * ctd.unit_index.length
  let pad := size0 % 4
  u32le t ++ u32le ctd.num ++ u32le (size0 + pad)
    ++ bytesOfU32Array ctd.unit_index ++ ctd.data ++ List.replicate pad 0

/-- `UnitCompiler::blob()`: push the `UnitResource` header
`{ version, num_units, num_component_types }`, then walk `_component_info`
in its (spawn-priority) order and emit a section for every type with
`_num > 0`. -/
def blob (s : UnitCompilerState) : List Nat :=
  s.component_info.foldl
    (fun buf t =>
      let ctd := lookupData s t
      if 0 < ctd.num then buf ++ sectionBytes t ctd else buf)
    (u32le RESOURCE_VERSION_UNIT ++ u32le s.num_units
      ++ u32le (countNonemptyTypes s.component_data))

/-! ### The reader of the blob format

These definitions follow the spec's reading procedure (§6 of the spec and
claim C2): per section, the sub-header, `num_instances` owner indices, then
`size - num_instances*4` payload bytes. -/

/-- Decode one little-endian `u32`, returning it with the remaining bytes. -/
def readU32 : List Nat → Option (Nat × List Nat)
  | b0 :: b1 :: b2 :: b3 :: rest =>
    some (b0 + 256 * b1 + 256 ^ 2 * b2 + 256 ^ 3 * b3, rest)
  | _ => none

/-- Decode `n` consecutive `u32`s. -/
def readU32s : Nat → List Nat → Option (List Nat × List Nat)
  | 0, b => some ([], b)
  | n + 1, b =>
    match readU32 b with
    | none => none
    | some (v, b1) =>
      match readU32s n b1 with
      | none => none
      | some (vs, b2) => some (v :: vs, b2)

/-- Take `n` raw bytes. -/
def readBytes (n : Nat) (b : List Nat) : Option (List Nat × List Nat) :=
  if n ≤ b.length then some (b.take n, b.drop n) else none

/-- A decoded section: sub-header fields, owner indices and payload bytes. -/
structure BlobSection where
  type : Nat
  num_instances : Nat
  size : Nat
  owners : List Nat
  payload : List Nat
deriving DecidableEq

/-- Decode one section. -/
def readSection (b : List Nat) : Option (BlobSection × List Nat) :=
  match readU32 b with
  | none => none
  | some (t, b1) =>
    match readU32 b1 with
    | none => none
    | some (num, b2) =>
      match readU32 b2 with
      | none => none
      | some (size, b3) =>
        match readU32s num b3 with
        | none => none
        | some (owners, b4) =>
          match readBytes (size - 4 * num) b4 with
          | none => none
          | some (payload, b5) =>
            some ({ type := t, num_instances := num, size := size,
                    owners := owners, payload := payload }, b5)

/-- Decode `n` consecutive sections. -/
def readSections : Nat → List Nat → Option (List BlobSection × List Nat)
  | 0, b => some ([], b)
  | n + 1, b =>
    match readSection b with
    | none => none
    | some (sec, b1) =>
      match readSections n b1 with
      | none => none
      | some (secs, b2) => some (sec :: secs, b2)

/-- A decoded blob: header fields and the decoded sections. -/
structure BlobView where
  version : Nat
  num_units : Nat
  sections : List BlobSection
deriving DecidableEq

/-- Decode a whole blob: the three header `u32`s, then as many sections as
the header announces. -/
def readBlob (b : List Nat) : Option BlobView :=
  match readU32 b with
  | none => none
  | some (v, b1) =>
    match readU32 b1 with
    | none => none
    | some (nu, b2) =>
      match readU32 b2 with
      | none => none
      | some (nt, b3) =>
        match readSections nt b3 with
        | none => none
        | some (secs, _) => some { version := v, num_units := nu, sections := secs }

/-- An environment with no readable unit resources. -/
def exEnv : Nat → Option UnitJson := fun _ => none

/-- An encoder producing a single byte (payload length 1, not a multiple of
4). -/
def exEncoderA : CompileFunction := fun _ => .ok [7]

/-- An encoder producing four bytes. -/
def exEncoderB : CompileFunction := fun _ => .ok [5, 5, 5, 5]

/-- A freshly constructed compiler with two registered types. -/
def exRegistered : UnitCompilerState :=
  { num_units := 0,
    component_info := [1, 2],
    component_data :=
      [(1, { compiler := exEncoderA, num := 0, unit_index := [], data := [] }),
       (2, { compiler := exEncoderB, num := 0, unit_index := [], data := [] })] }

/-- A unit document with one component of each registered type. -/
def exDoc : UnitJson :=
  { prefab := none, modified_components := [],
    components := [{ id := 10, ctype := 1, data := 0 }, { id := 11, ctype := 2, data := 0 }] }

/-- The compiler state after compiling `exDoc`. -/
def exState : UnitCompilerState := (compile_unit_from_json exEnv exRegistered exDoc).2

/-- The types emitted by `blob()`: the registered listing restricted to
types with at least one compiled instance, in listing order. -/
def sectionTypes (s : UnitCompilerState) : List Nat :=
  s.component_info.filter (fun t => decide (0 < (lookupData s t).num))

/-- What the reading procedure recovers for one emitted type: the sub-header
fields, the owner-index array, and the payload bytes — which are the
accumulated encoder bytes followed by the `size0 % 4` padding bytes, because
the size field was enlarged by the padding before being written. -/
def sectionView (s : UnitCompilerState) (t : Nat) : BlobSection :=
  let ctd := lookupData s t
  let size0 := ctd.data.length + 4 * ctd.unit_index.length
  { type := t, num_instances := ctd.num, size := size0 + size0 % 4,
    owners := ctd.unit_index,
    payload := ctd.data ++ List.replicate (size0 % 4) 0 }

/-- Structural well-formedness of a compiler state, as set up by the
constructor's registrations and maintained by `add_component_data`: the
priority listing and the sort map hold the same type set, keys are unique,
`_num` equals the owner-index array length, and all values written as `u32`
fields fit in 32 bits. -/
def CompilerWF (s : UnitCompilerState) : Prop :=
  s.component_info.Perm (s.component_data.map Prod.fst)
  ∧ (s.component_data.map Prod.fst).Nodup
  ∧ (∀ kv ∈ s.component_data, kv.2.num = kv.2.unit_index.length)
  ∧ (∀ kv ∈ s.component_data, kv.1 < 2 ^ 32 ∧ kv.2.num < 2 ^ 32
      ∧ (∀ u ∈ kv.2.unit_index, u < 2 ^ 32)
      ∧ kv.2.data.length + 4 * kv.2.unit_index.length + 3 < 2 ^ 32)
  ∧ s.num_units < 2 ^ 32
  ∧ s.component_data.length < 2 ^ 32

instance (s : UnitCompilerState) : Decidable (CompilerWF s) := by
  unfold CompilerWF; infer_instance

/-- The overrides of one level that target slot `idx` of the baseline, in
map order: entries whose GUID resolves (by `component_index` over the
immutable original array) to that slot. -/
def writesTo (original : List ComponentJson) (mods : List (Nat × ComponentJson))
    (idx : Nat) : List ComponentJson :=
  match mods with
  | [] => []
  | (g, v) :: rest =>
    if component_index original g = some idx then v :: writesTo original rest idx
    else writesTo original rest idx

/-- A component of the witness scenario: baseline component A. -/
def exCompA : ComponentJson := { id := 1, ctype := 100, data := 11 }

/-- Baseline component X (GUID 2), overridden twice down the chain. -/
def exCompX : ComponentJson := { id := 2, ctype := 200, data := 22 }

/-- The grandparent's override of X. -/
def exXGrand : ComponentJson := { id := 2, ctype := 200, data := 33 }

/-- The parent's override of X. -/
def exXParent : ComponentJson := { id := 2, ctype := 200, data := 44 }

/-- Grandparent (ultimate ancestor): baseline components, overrides X. -/
def exRoot : UnitJson :=
  { prefab := none, modified_components := [(2, exXGrand)],
    components := [exCompA, exCompX] }

/-- Parent: also overrides X, differently. -/
def exParent : UnitJson :=
  { prefab := some 9, modified_components := [(2, exXParent)], components := [] }

/-- Leaf: no overrides of its own. -/
def exLeaf : UnitJson :=
  { prefab := some 8, modified_components := [], components := [] }

/-- The collected chain, leaf first. -/
def exChain : List UnitJson := [exLeaf, exParent, exRoot]

/-- Whether a compile step succeeded. -/
def compileOk : Except CompileError (List Nat) → Bool
  | .ok _ => true
  | .error _ => false

/-- An encoder producing four bytes, used in the abort scenarios. -/
def exEncoderC : CompileFunction := fun _ => .ok [9, 9, 9, 9]

/-- A compiler with one registered type (hash 1). -/
def exRegisteredC : UnitCompilerState :=
  { num_units := 0, component_info := [1],
    component_data := [(1, { compiler := exEncoderC, num := 0, unit_index := [], data := [] })] }

/-- A component of the registered type. -/
def exGood : ComponentJson := { id := 20, ctype := 1, data := 0 }

/-- A component whose type hash (99) is not registered. -/
def exBad : ComponentJson := { id := 21, ctype := 99, data := 0 }

/-- A unit with a valid component followed by an unknown-type component. -/
def exDocBad : UnitJson :=
  { prefab := none, modified_components := [], components := [exGood, exBad] }

/-- Ultimate ancestor of the deep chain. -/
def exU4 : UnitJson := { prefab := none, modified_components := [], components := [] }

/-- Ancestor 3 refers to ancestor 4. -/
def exU3 : UnitJson := { prefab := some 4, modified_components := [], components := [] }

/-- Ancestor 2 refers to ancestor 3. -/
def exU2 : UnitJson := { prefab := some 3, modified_components := [], components := [] }

/-- Ancestor 1 refers to ancestor 2. -/
def exU1 : UnitJson := { prefab := some 2, modified_components := [], components := [] }

/-- A leaf whose prefab chain has four ancestors (five documents). -/
def exDeepLeaf : UnitJson := { prefab := some 1, modified_components := [], components := [] }

/-- The resource environment resolving the ancestor paths. -/
def exEnvChain : Nat → Option UnitJson := fun p =>
  if p = 1 then some exU1
  else if p = 2 then some exU2
  else if p = 3 then some exU3
  else if p = 4 then some exU4
  else none

theorem unitIndex_lt (id : Nat) : unitIndex id < 2 ^ UNIT_INDEX_BITS :=
  Nat.mod_lt _ (by decide)

theorem unitGen_lt (id : Nat) : unitGen id < 2 ^ UNIT_ID_BITS :=
  Nat.mod_lt _ (by decide)

theorem make_unit_eq (idx gen : Nat) (h : idx < 2 ^ UNIT_INDEX_BITS) :
    make_unit idx gen = idx + gen * 2 ^ UNIT_INDEX_BITS := by
  unfold make_unit
  rw [Nat.zero_or, Nat.shiftLeft_eq, Nat.lor_comm, Nat.mul_comm gen, ← Nat.mul_add_lt_is_or h gen]
  ring

theorem unitIndex_make_unit (idx gen : Nat) (h : idx < 2 ^ UNIT_INDEX_BITS) :
    unitIndex (make_unit idx gen) = idx := by
  rw [unitIndex, make_unit_eq idx gen h, Nat.add_mul_mod_self_right, Nat.mod_eq_of_lt h]

theorem unitGen_make_unit (idx gen : Nat) (hi : idx < 2 ^ UNIT_INDEX_BITS)
    (hg : gen < 2 ^ UNIT_ID_BITS) : unitGen (make_unit idx gen) = gen := by
  rw [unitGen, make_unit_eq idx gen hi,
    Nat.add_mul_div_right _ _ (by decide : 0 < 2 ^ UNIT_INDEX_BITS),
    Nat.div_eq_of_lt hi, Nat.zero_add, Nat.mod_eq_of_lt hg]

theorem getD_mem {α : Type} {l : List α} {i : Nat} (d : α) (h : i < l.length) : l.getD i d ∈ l := by
  rw [List.getD_eq_getElem l d h]
  exact List.getElem_mem h

theorem getD_append_left {α : Type} {l l' : List α} {i : Nat} (d : α) (h : i < l.length) :
    (l ++ l').getD i d = l.getD i d := by
  simp [List.getD_eq_getElem?_getD, List.getElem?_append_left h]

theorem getD_set_self {α : Type} {l : List α} {i : Nat} {v : α} (d : α) (h : i < l.length) :
    (l.set i v).getD i d = v := by
  simp [List.getD_eq_getElem?_getD, List.getElem?_set_self', h]

theorem getD_set_ne {α : Type} {l : List α} {i j : Nat} {v : α} (d : α) (h : i ≠ j) :
    (l.set i v).getD j d = l.getD j d := by
  simp [List.getD_eq_getElem?_getD, List.getElem?_set_ne h]

/-- Every reachable allocator state is well-formed. -/
theorem reach_wf {s : UnitManagerState} (h : Reach s) : WF s := by
  induction h with
  | init cbs => refine ⟨by simp, by simp, by simp⟩
  | step_create h hok ih =>
    rename_i s
    obtain ⟨hfree, hgen, hlen⟩ := ih
    unfold create
    by_cases hc : MINIMUM_FREE_INDICES < s.free_indices.length
    · rw [if_pos hc]
      exact ⟨fun i hi => hfree i (List.mem_of_mem_tail hi), hgen, hlen⟩
    · rw [if_neg hc]
      have hlt : s.generation.length < 2 ^ UNIT_INDEX_BITS := hok.resolve_left hc
      refine ⟨?_, ?_, by simpa using hlt⟩
      · intro i hi
        have := hfree i hi
        simp only [List.length_append, List.length_cons, List.length_nil]
        omega
      · intro g hg
        rcases List.mem_append.mp hg with h1 | h1
        · exact hgen g h1
        · simp only [List.mem_cons, List.not_mem_nil, or_false] at h1
          subst h1; decide
  | step_destroy id h hidx ih =>
    rename_i s
    obtain ⟨hfree, hgen, hlen⟩ := ih
    unfold destroy
    refine ⟨?_, ?_, by simpa using hlen⟩
    · intro i hi
      simp only [List.length_set]
      rcases List.mem_append.mp hi with h1 | h1
      · exact hfree i h1
      · simp only [List.mem_cons, List.not_mem_nil, or_false] at h1
        subst h1; exact hidx
    · intro g hg
      rcases List.mem_or_eq_of_mem_set hg with h1 | h1
      · exact hgen g h1
      · subst h1
        exact Nat.mod_lt _ (by decide)

/-- C10 [confirmed] — Implicit allocator invariant: in every reachable state
every index in the free queue is a valid slot of the generation table; the
table's length never decreases (a `create` can only grow it and a `destroy`
leaves it unchanged); hence when the recycle branch of `create()` pops the
queue front, the generation entry it reads exists. -/
theorem unitManager_free_queue_in_bounds (s : UnitManagerState) (h : Reach s) :
    (∀ i ∈ s.free_indices, i < s.generation.length)
    ∧ s.generation.length ≤ (create s).1.generation.length
    ∧ (∀ id, (destroy s id).1.generation.length = s.generation.length)
    ∧ (MINIMUM_FREE_INDICES < s.free_indices.length →
        s.free_indices.headD 0 < s.generation.length) := by
  obtain ⟨hfree, _, _⟩ := reach_wf h
  refine ⟨hfree, ?_, ?_, ?_⟩
  · unfold create
    by_cases hc : MINIMUM_FREE_INDICES < s.free_indices.length
    · rw [if_pos hc]
    · rw [if_neg hc]; simp
  · intro id; simp [destroy]
  · intro hlen
    have hne : s.free_indices ≠ [] := by
      intro hnil; rw [hnil] at hlen; simp [MINIMUM_FREE_INDICES] at hlen
    obtain ⟨a, l, hl⟩ := List.exists_cons_of_ne_nil hne
    rw [hl]
    simpa using hfree a (by rw [hl]; simp)

theorem unitManager_free_queue_in_bounds_witness :
    (∀ i ∈ (create umInit).1.free_indices, i < (create umInit).1.generation.length)
    ∧ (create umInit).1.generation.length ≤ (create (create umInit).1).1.generation.length
    ∧ (∀ id, (destroy (create umInit).1 id).1.generation.length = (create umInit).1.generation.length)
    ∧ (MINIMUM_FREE_INDICES < (create umInit).1.free_indices.length →
        (create umInit).1.free_indices.headD 0 < (create umInit).1.generation.length) :=
  unitManager_free_queue_in_bounds (create umInit).1
    (Reach.step_create (Reach.init []) (Or.inr (by decide)))

/-- C4 [confirmed] — While the free queue holds at most `MINIMUM_FREE_INDICES`
(1024) entries, `create()` never pops the queue: it leaves the queue
untouched, appends a fresh slot with generation 0 to the table, and returns
the id of that new slot. -/
theorem create_appends_below_watermark (s : UnitManagerState)
    (h : s.free_indices.length ≤ MINIMUM_FREE_INDICES) :
    (create s).1.generation = s.generation ++ [0]
    ∧ (create s).1.free_indices = s.free_indices
    ∧ (create s).2 = make_unit s.generation.length 0 := by
  unfold create
  rw [if_neg (by omega)]
  refine ⟨rfl, rfl, ?_⟩
  simp [List.getD_eq_getElem?_getD]

theorem create_appends_below_watermark_witness :
    (create umInit).1.generation = umInit.generation ++ [0]
    ∧ (create umInit).1.free_indices = umInit.free_indices
    ∧ (create umInit).2 = make_unit umInit.generation.length 0 :=
  create_appends_below_watermark umInit (by decide)

theorem trigger_eq_map (cbs : List DestroyData) (id : Nat) :
    trigger_destroy_callbacks cbs id
      = cbs.map (fun dd => { fn := dd.destroy, id := id, user_data := dd.user_data }) := by
  induction cbs with
  | nil => rfl
  | cons c rest ih => simp [trigger_destroy_callbacks, ih]

/-- C6 [confirmed] — A `destroy(id)` call invokes each registered callback
exactly once, in registration order, passing every callback the destroyed id
together with that callback's own registered context: the invocation trace is
exactly the registered list mapped over `id`.  Registration itself appends,
so list order is registration order. -/
theorem destroy_invokes_callbacks_in_order (s : UnitManagerState) (id fn ud : Nat) :
    (destroy s id).2
      = s.destroy_callbacks.map (fun dd => { fn := dd.destroy, id := id, user_data := dd.user_data })
    ∧ (register_destroy_function s fn ud).destroy_callbacks
      = s.destroy_callbacks ++ [{ destroy := fn, user_data := ud }] :=
  ⟨trigger_eq_map s.destroy_callbacks id, rfl⟩

/-- Recycle branch of `create()` (free queue above the watermark). -/
theorem create_pop (s : UnitManagerState) (hc : MINIMUM_FREE_INDICES < s.free_indices.length) :
    create s = ({ s with free_indices := s.free_indices.tail },
      make_unit (s.free_indices.headD 0) (s.generation.getD (s.free_indices.headD 0) 0)) := by
  unfold create
  rw [if_pos hc]

/-- Append branch of `create()` (free queue at or below the watermark). -/
theorem create_append (s : UnitManagerState) (hc : ¬ MINIMUM_FREE_INDICES < s.free_indices.length) :
    create s = ({ s with generation := s.generation ++ [0] }, make_unit s.generation.length 0) := by
  unfold create
  rw [if_neg hc]
  have h1 : (s.generation ++ [0]).length - 1 = s.generation.length := by simp
  have h2 : (s.generation ++ [0]).getD s.generation.length 0 = 0 := by
    simp [List.getD_eq_getElem?_getD]
  simp only [h1, h2]

/-- C3 [confirmed] — An id returned by `create()` is alive in the state that
`create` produces; and destroying an alive id (whose index is a table slot,
as holds for every id the allocator handed out) leaves it not alive. -/
theorem created_alive_destroyed_dead (s : UnitManagerState) (id : Nat)
    (hwf : WF s)
    (hok : MINIMUM_FREE_INDICES < s.free_indices.length ∨ s.generation.length < 2 ^ UNIT_INDEX_BITS)
    (hidx : unitIndex id < s.generation.length) :
    alive (create s).1 (create s).2 = true
    ∧ (alive s id = true → alive (destroy s id).1 id = false) := by
  obtain ⟨hfree, hgen, hlen⟩ := hwf
  constructor
  · by_cases hc : MINIMUM_FREE_INDICES < s.free_indices.length
    · rw [create_pop s hc]
      have hne : s.free_indices ≠ [] := by
        intro hnil; rw [hnil] at hc; simp [MINIMUM_FREE_INDICES] at hc
      obtain ⟨a, l, hl⟩ := List.exists_cons_of_ne_nil hne
      have hmem : s.free_indices.headD 0 ∈ s.free_indices := by rw [hl]; simp
      have hlt : s.free_indices.headD 0 < s.generation.length := hfree _ hmem
      have hglt : s.generation.getD (s.free_indices.headD 0) 0 < 2 ^ UNIT_ID_BITS :=
        hgen _ (getD_mem 0 hlt)
      simp only [alive]
      rw [unitIndex_make_unit _ _ (lt_of_lt_of_le hlt hlen), unitGen_make_unit _ _ (lt_of_lt_of_le hlt hlen) hglt]
      simp
    · rw [create_append s hc]
      have hlt : s.generation.length < 2 ^ UNIT_INDEX_BITS := hok.resolve_left hc
      simp only [alive]
      rw [unitIndex_make_unit _ _ hlt, unitGen_make_unit _ _ hlt (by decide)]
      have : (s.generation ++ [0]).getD s.generation.length 0 = 0 := by
        simp [List.getD_eq_getElem?_getD]
      rw [this]
      rfl
  · intro ha
    have hG : s.generation.getD (unitIndex id) 0 = unitGen id := by
      simpa [alive] using ha
    simp only [alive, destroy, beq_eq_false_iff_ne]
    rw [getD_set_self 0 hidx, hG]
    have h256 : (2 : Nat) ^ UNIT_ID_BITS = 256 := by decide
    have := unitGen_lt id
    rw [h256] at *
    omega

theorem created_alive_destroyed_dead_witness :
    (alive (create (create umInit).1).1 (create (create umInit).1).2 = true
    ∧ (alive (create umInit).1 (create umInit).2 = true →
        alive (destroy (create umInit).1 (create umInit).2).1 (create umInit).2 = false)) :=
  created_alive_destroyed_dead (create umInit).1 (create umInit).2 (by decide)
    (Or.inr (by decide)) (by decide)

theorem stepOp_generation_length (s : UnitManagerState) (op : Op) :
    s.generation.length ≤ (stepOp s op).generation.length := by
  cases op with
  | createOp =>
    simp only [stepOp]
    by_cases hc : MINIMUM_FREE_INDICES < s.free_indices.length
    · rw [create_pop s hc]
    · rw [create_append s hc]; simp
  | destroyOp id => simp [stepOp, destroy]

/-- How the generation entry of a fixed slot evolves under a sequence of
operations: `create` never modifies an existing entry, and each `destroy`
whose id has that index increments it modulo `2^8`. -/
theorem steps_getD_generation (ops : List Op) (s : UnitManagerState) (idx : Nat)
    (h : idx < s.generation.length) (hg : s.generation.getD idx 0 < 2 ^ UNIT_ID_BITS) :
    (steps s ops).generation.getD idx 0
      = (s.generation.getD idx 0 + destroysAt idx ops) % 2 ^ UNIT_ID_BITS := by
  induction ops generalizing s with
  | nil =>
    simp only [steps, destroysAt, Nat.add_zero]
    exact (Nat.mod_eq_of_lt hg).symm
  | cons op rest ih =>
    have hlen' : idx < (stepOp s op).generation.length :=
      lt_of_lt_of_le h (stepOp_generation_length s op)
    cases op with
    | createOp =>
      have hpres : (stepOp s Op.createOp).generation.getD idx 0 = s.generation.getD idx 0 := by
        simp only [stepOp]
        by_cases hc : MINIMUM_FREE_INDICES < s.free_indices.length
        · rw [create_pop s hc]
        · rw [create_append s hc]
          exact getD_append_left 0 h
      rw [steps, ih (stepOp s Op.createOp) hlen' (by rw [hpres]; exact hg), hpres]
      rfl
    | destroyOp id' =>
      by_cases hcase : unitIndex id' = idx
      · have hset : (stepOp s (Op.destroyOp id')).generation.getD idx 0
            = (s.generation.getD idx 0 + 1) % 2 ^ UNIT_ID_BITS := by
          simp only [stepOp, destroy]
          rw [hcase, getD_set_self 0 h]
        rw [steps, ih (stepOp s (Op.destroyOp id')) hlen'
            (by rw [hset]; exact Nat.mod_lt _ (by decide)), hset]
        have hcount : destroysAt idx (Op.destroyOp id' :: rest) = 1 + destroysAt idx rest := by
          simp [destroysAt, hcase]
        rw [hcount, Nat.mod_add_mod]
        congr 1
        omega
      · have hset : (stepOp s (Op.destroyOp id')).generation.getD idx 0
            = s.generation.getD idx 0 := by
          simp only [stepOp, destroy]
          exact getD_set_ne 0 hcase
        rw [steps, ih (stepOp s (Op.destroyOp id')) hlen' (by rw [hset]; exact hg), hset]
        have hcount : destroysAt idx (Op.destroyOp id' :: rest) = destroysAt idx rest := by
          simp [destroysAt, hcase]
        rw [hcount]

/-- C5 [corrected] — After destroying an alive id `(idx, g)`: the id stays
not-alive at every later point reached with fewer than 255 further destroys
targeting slot `idx` (the 8-bit generation wraps after 255 more, see the
counterexample); and a `create` that recycles slot `idx` returns an id whose
generation is the table entry at that moment — equal to `g+1 (mod 2^8)`
exactly when no further destroy hit slot `idx` in between. -/
theorem destroyed_stays_dead_until_wrap (s : UnitManagerState) (id : Nat) (ops : List Op)
    (hidx : unitIndex id < s.generation.length)
    (halive : alive s id = true) :
    (destroysAt (unitIndex id) ops < 2 ^ UNIT_ID_BITS - 1 →
      alive (steps (destroy s id).1 ops) id = false)
    ∧ (destroysAt (unitIndex id) ops = 0 →
      MINIMUM_FREE_INDICES < (steps (destroy s id).1 ops).free_indices.length →
      (steps (destroy s id).1 ops).free_indices.headD 0 = unitIndex id →
      unitIndex (create (steps (destroy s id).1 ops)).2 = unitIndex id
      ∧ unitGen (create (steps (destroy s id).1 ops)).2 = (unitGen id + 1) % 2 ^ UNIT_ID_BITS) := by
  have hG : s.generation.getD (unitIndex id) 0 = unitGen id := by
    simpa [alive] using halive
  have hd1 : (destroy s id).1.generation.getD (unitIndex id) 0
      = (unitGen id + 1) % 2 ^ UNIT_ID_BITS := by
    simp only [destroy]
    rw [getD_set_self 0 hidx, hG]
  have hlen1 : unitIndex id < (destroy s id).1.generation.length := by
    simp [destroy, hidx]
  have hev : (steps (destroy s id).1 ops).generation.getD (unitIndex id) 0
      = (unitGen id + 1 + destroysAt (unitIndex id) ops) % 2 ^ UNIT_ID_BITS := by
    rw [steps_getD_generation ops _ _ hlen1 (by rw [hd1]; exact Nat.mod_lt _ (by decide)), hd1,
      Nat.mod_add_mod]
  constructor
  · intro hlt
    simp only [alive, beq_eq_false_iff_ne]
    have h256 : (2 : Nat) ^ UNIT_ID_BITS = 256 := by decide
    rw [hev, h256]
    have hg := unitGen_lt id
    rw [h256] at hg hlt
    omega
  · intro h0 hq hh
    rw [create_pop _ hq, hh]
    have hgen' : (steps (destroy s id).1 ops).generation.getD (unitIndex id) 0
        = (unitGen id + 1) % 2 ^ UNIT_ID_BITS := by
      rw [hev, h0]
    rw [hgen']
    exact ⟨unitIndex_make_unit _ _ (unitIndex_lt id),
      unitGen_make_unit _ _ (unitIndex_lt id) (Nat.mod_lt _ (by decide))⟩

theorem destroyed_stays_dead_until_wrap_witness :
    (destroysAt (unitIndex (create umInit).2) [] < 2 ^ UNIT_ID_BITS - 1 →
      alive (steps (destroy (create umInit).1 (create umInit).2).1 []) (create umInit).2 = false)
    ∧ (destroysAt (unitIndex (create umInit).2) [] = 0 →
      MINIMUM_FREE_INDICES < (steps (destroy (create umInit).1 (create umInit).2).1 []).free_indices.length →
      (steps (destroy (create umInit).1 (create umInit).2).1 []).free_indices.headD 0 = unitIndex (create umInit).2 →
      unitIndex (create (steps (destroy (create umInit).1 (create umInit).2).1 [])).2 = unitIndex (create umInit).2
      ∧ unitGen (create (steps (destroy (create umInit).1 (create umInit).2).1 [])).2
          = (unitGen (create umInit).2 + 1) % 2 ^ UNIT_ID_BITS) :=
  destroyed_stays_dead_until_wrap (create umInit).1 (create umInit).2 [] (by decide) (by decide)

/-- C5 counterexample — the claim as stated is false on the code: `destroy`
does not check liveness and the 8-bit generation wraps.  Create id `(0,0)`,
destroy it, then destroy the same (now stale) id again 255 times: the
generation entry wraps back to 0 and the destroyed id is alive again.
Likewise, after 1025 further destroys of index 0 the free queue exceeds the
watermark and the id created by recycling index 0 carries generation
`1026 % 256 = 2`, not `g + 1 = 1`. -/
theorem destroys_replicate_aux (n : Nat) (g k : Nat) (hg : g < 2 ^ UNIT_ID_BITS) :
    steps { generation := [g], free_indices := List.replicate k 0, destroy_callbacks := [] }
        (List.replicate n (Op.destroyOp 0))
      = { generation := [(g + n) % 2 ^ UNIT_ID_BITS], free_indices := List.replicate (k + n) 0,
          destroy_callbacks := [] } := by
  induction n generalizing g k with
  | zero => simp [steps, Nat.mod_eq_of_lt hg]
  | succ m ih =>
    have h0 : unitIndex 0 = 0 := by decide
    have hstep : stepOp
          { generation := [g], free_indices := List.replicate k 0, destroy_callbacks := [] }
          (Op.destroyOp 0)
        = { generation := [(g + 1) % 2 ^ UNIT_ID_BITS],
            free_indices := List.replicate (k + 1) 0, destroy_callbacks := [] } := by
      simp [stepOp, destroy, h0, List.getD, List.set, List.replicate_succ']
    rw [List.replicate_succ, steps, hstep, ih _ _ (Nat.mod_lt _ (by decide))]
    rw [Nat.mod_add_mod]
    have e1 : g + 1 + m = g + (m + 1) := by omega
    have e2 : k + 1 + m = k + (m + 1) := by omega
    rw [e1, e2]

theorem destroyed_resurrection_cex :
    alive (destroy (create umInit).1 (create umInit).2).1 (create umInit).2 = false
    ∧ alive (steps (destroy (create umInit).1 (create umInit).2).1
        (List.replicate 255 (Op.destroyOp (create umInit).2))) (create umInit).2 = true
    ∧ MINIMUM_FREE_INDICES < (steps (destroy (create umInit).1 (create umInit).2).1
        (List.replicate 1025 (Op.destroyOp (create umInit).2))).free_indices.length
    ∧ unitIndex (create (steps (destroy (create umInit).1 (create umInit).2).1
        (List.replicate 1025 (Op.destroyOp (create umInit).2)))).2 = unitIndex (create umInit).2
    ∧ unitGen (create (steps (destroy (create umInit).1 (create umInit).2).1
        (List.replicate 1025 (Op.destroyOp (create umInit).2)))).2 = 2
    ∧ (unitGen (create umInit).2 + 1) % 2 ^ UNIT_ID_BITS = 1 := by
  have hs1 : create umInit = ({ generation := [0], free_indices := [], destroy_callbacks := [] }, 0) := by
    decide
  have hd1 : (destroy { generation := [0], free_indices := [], destroy_callbacks := [] } 0).1
      = { generation := [1], free_indices := List.replicate 1 0, destroy_callbacks := [] } := by
    decide
  rw [hs1]
  simp only []
  rw [hd1, destroys_replicate_aux 255 1 1 (by decide), destroys_replicate_aux 1025 1 1 (by decide)]
  have hq : MINIMUM_FREE_INDICES < (List.replicate (1 + 1025) (0 : Nat)).length := by
    rw [List.length_replicate]
    decide
  have hcre : create
      { generation := [(1 + 1025) % 2 ^ UNIT_ID_BITS],
        free_indices := List.replicate (1 + 1025) 0, destroy_callbacks := [] }
      = ({ generation := [(1 + 1025) % 2 ^ UNIT_ID_BITS],
            free_indices := (List.replicate (1 + 1025) (0 : Nat)).tail,
            destroy_callbacks := [] },
          make_unit 0 ((1 + 1025) % 2 ^ UNIT_ID_BITS)) := by
    rw [create_pop _ hq]
    have hh : (List.replicate (1 + 1025) (0 : Nat)).headD 0 = 0 := by
      rw [(by omega : 1 + 1025 = 1025 + 1), List.replicate_succ]
      rfl
    rw [hh]
    rfl
  rw [hcre]
  refine ⟨by decide, ?_, hq, by decide, by decide, by decide⟩
  have h256 : ((1 : Nat) + 255) % 2 ^ UNIT_ID_BITS = 0 := by decide
  rw [h256]
  decide

theorem blob_foldl_eq (s : UnitCompilerState) (info : List Nat) (header : List Nat) :
    info.foldl
        (fun buf t =>
          let ctd := lookupData s t
          if 0 < ctd.num then buf ++ sectionBytes t ctd else buf)
        header
      = header ++ (info.filter (fun t => decide (0 < (lookupData s t).num))).flatMap
          (fun t => sectionBytes t (lookupData s t)) := by
  induction info generalizing header with
  | nil => simp
  | cons t rest ih =>
    by_cases hc : 0 < (lookupData s t).num
    · simp [hc, ih, List.append_assoc]
    · simp [hc, ih]

theorem countNonemptyTypes_eq_countP (l : List (Nat × ComponentTypeData)) :
    countNonemptyTypes l = l.countP (fun kv => decide (0 < kv.2.num)) := by
  induction l with
  | nil => rfl
  | cons kv rest ih =>
    rw [countNonemptyTypes, ih, List.countP_cons]
    by_cases h : 0 < kv.2.num
    · simp [h, Nat.add_comm]
    · simp [h]

theorem lookupAssoc_eq_of_mem_nodup (l : List (Nat × ComponentTypeData))
    (k : Nat) (v : ComponentTypeData) (hnodup : (l.map Prod.fst).Nodup)
    (hmem : (k, v) ∈ l) : lookupAssoc l k = some v := by
  induction l with
  | nil => simp at hmem
  | cons kv rest ih =>
    rw [List.map_cons, List.nodup_cons] at hnodup
    rcases List.mem_cons.mp hmem with h1 | h1
    · rw [← h1, lookupAssoc, if_pos rfl]
    · have hk : kv.1 ≠ k := by
        intro he
        exact hnodup.1 (he ▸ List.mem_map_of_mem Prod.fst h1)
      cases kv with
      | mk k' v' =>
        rw [lookupAssoc, if_neg hk]
        exact ih hnodup.2 h1

theorem lookupAssoc_mem (l : List (Nat × ComponentTypeData)) (k : Nat)
    (v : ComponentTypeData) (h : lookupAssoc l k = some v) : (k, v) ∈ l := by
  induction l with
  | nil => simp [lookupAssoc] at h
  | cons kv rest ih =>
    cases kv with
    | mk k' v' =>
      rw [lookupAssoc] at h
      by_cases he : k' = k
      · rw [if_pos he] at h
        subst he
        cases h
        exact List.mem_cons_self _ _
      · rw [if_neg he] at h
        exact List.mem_cons_of_mem _ (ih h)

/-- For each type emitted by `blob()` the sort map holds an entry, namely
the one `lookupData` returns. -/
theorem sectionTypes_lookup (s : UnitCompilerState) (t : Nat) (h : t ∈ sectionTypes s) :
    (t, lookupData s t) ∈ s.component_data ∧ 0 < (lookupData s t).num := by
  have hmem := List.mem_filter.mp h
  have hnum : 0 < (lookupData s t).num := by
    have := hmem.2
    simpa using this
  refine ⟨?_, hnum⟩
  cases hl : lookupAssoc s.component_data t with
  | none =>
    rw [lookupData, hl] at hnum
    simp [defaultCTD] at hnum
  | some v =>
    have : lookupData s t = v := by rw [lookupData, hl]; rfl
    rw [this]
    exact lookupAssoc_mem _ _ _ hl

/-- The count written in the blob header equals the number of emitted
sections. -/
theorem countNonemptyTypes_eq_sectionTypes_length (s : UnitCompilerState)
    (hperm : s.component_info.Perm (s.component_data.map Prod.fst))
    (hnodup : (s.component_data.map Prod.fst).Nodup) :
    countNonemptyTypes s.component_data = (sectionTypes s).length := by
  rw [countNonemptyTypes_eq_countP, sectionTypes, ← List.countP_eq_length_filter]
  rw [hperm.countP_eq]
  rw [List.countP_map]
  apply List.countP_congr
  intro kv hkv
  have : lookupData s kv.1 = kv.2 := by
    rw [lookupData, lookupAssoc_eq_of_mem_nodup s.component_data kv.1 kv.2 hnodup]
    · rfl
    · exact hkv
  simp [Function.comp, this]

theorem readU32_u32le (n : Nat) (rest : List Nat) (h : n < 2 ^ 32) :
    readU32 (u32le n ++ rest) = some (n, rest) := by
  simp only [u32le, List.cons_append, List.nil_append, readU32, Option.some.injEq, Prod.mk.injEq]
  refine ⟨?_, trivial⟩
  have h' : n < 4294967296 := by omega
  norm_num
  omega

theorem readBytes_exact (xs rest : List Nat) :
    readBytes xs.length (xs ++ rest) = some (xs, rest) := by
  rw [readBytes, if_pos (by simp), List.take_left, List.drop_left]

theorem readBytes_exact2 (xs ys rest : List Nat) :
    readBytes (xs.length + ys.length) (xs ++ (ys ++ rest)) = some (xs ++ ys, rest) := by
  rw [← List.append_assoc, ← List.length_append, readBytes_exact]

theorem readU32s_bytes (l : List Nat) (rest : List Nat) (h : ∀ u ∈ l, u < 2 ^ 32) :
    readU32s l.length (bytesOfU32Array l ++ rest) = some (l, rest) := by
  induction l generalizing rest with
  | nil => rfl
  | cons a tl ih =>
    rw [List.length_cons, bytesOfU32Array, List.append_assoc, readU32s,
      readU32_u32le a _ (h a (List.mem_cons_self a tl))]
    simp only [ih rest (fun u hu => h u (List.mem_cons_of_mem a hu))]

theorem readSection_sectionBytes (t : Nat) (ctd : ComponentTypeData) (rest : List Nat)
    (ht : t < 2 ^ 32) (hnum : ctd.num < 2 ^ 32) (hno : ctd.num = ctd.unit_index.length)
    (howners : ∀ u ∈ ctd.unit_index, u < 2 ^ 32)
    (hsize : ctd.data.length + 4 * ctd.unit_index.length + 3 < 2 ^ 32) :
    readSection (sectionBytes t ctd ++ rest)
      = some ({ type := t, num_instances := ctd.num,
                size := (ctd.data.length + 4 * ctd.unit_index.length)
                  + (ctd.data.length + 4 * ctd.unit_index.length) % 4,
                owners := ctd.unit_index,
                payload := ctd.data
                  ++ List.replicate ((ctd.data.length + 4 * ctd.unit_index.length) % 4) 0 },
              rest) := by
  have hsz : (ctd.data.length + 4 * ctd.unit_index.length)
      + (ctd.data.length + 4 * ctd.unit_index.length) % 4 < 2 ^ 32 := by
    have : (ctd.data.length + 4 * ctd.unit_index.length) % 4 ≤ 3 := by omega
    omega
  rw [sectionBytes, hno]
  simp only [List.append_assoc]
  have hnum' : ctd.unit_index.length < 2 ^ 32 := hno ▸ hnum
  have harg : ctd.data.length + 4 * ctd.unit_index.length
      + (ctd.data.length + 4 * ctd.unit_index.length) % 4 - 4 * ctd.unit_index.length
      = ctd.data.length
        + (List.replicate ((ctd.data.length + 4 * ctd.unit_index.length) % 4) (0 : Nat)).length := by
    simp only [List.length_replicate]
    omega
  simp only [readSection, readU32_u32le, ht, hnum', hsz, harg]
  rw [readU32s_bytes ctd.unit_index _ howners]
  simp only [readBytes_exact2]

theorem readSections_flatMap (s : UnitCompilerState) (hwf : CompilerWF s)
    (ts : List Nat) (rest : List Nat) (hsub : ∀ t ∈ ts, t ∈ sectionTypes s) :
    readSections ts.length ((ts.flatMap fun t => sectionBytes t (lookupData s t)) ++ rest)
      = some (ts.map (sectionView s), rest) := by
  induction ts generalizing rest with
  | nil => rfl
  | cons t tl ih =>
    obtain ⟨hmem, -⟩ := sectionTypes_lookup s t (hsub t (List.mem_cons_self t tl))
    obtain ⟨-, -, hnum_eq, hbounds, -, -⟩ := hwf
    obtain ⟨hb1, hb2, hb3, hb4⟩ := hbounds _ hmem
    have hno := hnum_eq _ hmem
    rw [List.length_cons, List.flatMap_cons, List.append_assoc, readSections,
      readSection_sectionBytes t (lookupData s t) _ hb1 hb2 hno hb3 hb4]
    simp only [ih rest (fun x hx => hsub x (List.mem_cons_of_mem t hx))]
    simp [sectionView]

/-- The byte-level structure of `blob()`: the header, then one section per
type with a positive instance count, in listing order. -/
theorem blob_eq_sections (s : UnitCompilerState) (h : CompilerWF s) :
    blob s = u32le RESOURCE_VERSION_UNIT ++ u32le s.num_units
      ++ u32le (sectionTypes s).length
      ++ (sectionTypes s).flatMap (fun t => sectionBytes t (lookupData s t)) := by
  obtain ⟨hperm, hnodup, -, -, -, -⟩ := h
  rw [blob, blob_foldl_eq, countNonemptyTypes_eq_sectionTypes_length s hperm hnodup]
  simp [sectionTypes, List.append_assoc]

/-- C1 [corrected] — `blob()` emits, after the header, one section per
registered type with instance count > 0, in the priority listing's order;
each section is the sub-header followed by the owner-index array, the
payload and `pad` zero bytes, where (see `sectionBytes`) the sub-header's
section-size field is the owner-index array byte size plus the payload byte
size **plus `pad`**, with `pad = (owner bytes + payload bytes) % 4` — not
the plain sum, and a padding that 4-aligns the next sub-header only when
that sum is congruent to 0 or 2 mod 4 (see the counterexample). -/
theorem blob_emits_sections_with_padded_size (s : UnitCompilerState) (h : CompilerWF s) :
    blob s = u32le RESOURCE_VERSION_UNIT ++ u32le s.num_units
      ++ u32le (sectionTypes s).length
      ++ (sectionTypes s).flatMap (fun t => sectionBytes t (lookupData s t))
    ∧ (∀ t ∈ sectionTypes s, 0 < (lookupData s t).num)
    ∧ (∀ t ∈ s.component_info, 0 < (lookupData s t).num → t ∈ sectionTypes s) := by
  refine ⟨blob_eq_sections s h, ?_, ?_⟩
  · intro t ht
    exact (sectionTypes_lookup s t ht).2
  · intro t ht hnum
    rw [sectionTypes, List.mem_filter]
    exact ⟨ht, by simpa using hnum⟩

theorem blob_emits_sections_with_padded_size_witness :
    (blob exState = u32le RESOURCE_VERSION_UNIT ++ u32le exState.num_units
      ++ u32le (sectionTypes exState).length
      ++ (sectionTypes exState).flatMap (fun t => sectionBytes t (lookupData exState t))
    ∧ (∀ t ∈ sectionTypes exState, 0 < (lookupData exState t).num)
    ∧ (∀ t ∈ exState.component_info, 0 < (lookupData exState t).num → t ∈ sectionTypes exState)) :=
  blob_emits_sections_with_padded_size exState (by decide)

/-- C1 counterexample — compiling `exDoc` (one 1-byte-payload component of
type 1, one 4-byte-payload component of type 2) succeeds, and in the
resulting blob the first section's sub-header size field is 6 while its
owner-index array (4 bytes) plus its payload (1 byte) is 5; moreover the
second sub-header starts at byte offset 30, which is not 4-aligned. -/
theorem blob_section_size_and_alignment_cex :
    (compile_unit_from_json exEnv exRegistered exDoc).1 = Except.ok ()
    ∧ readBlob (blob exState)
      = some { version := RESOURCE_VERSION_UNIT, num_units := 1, sections :=
          [{ type := 1, num_instances := 1, size := 6, owners := [0], payload := [7, 0] },
           { type := 2, num_instances := 1, size := 8, owners := [0], payload := [5, 5, 5, 5] }] }
    ∧ (lookupData exState 1).data = [7]
    ∧ 4 * (lookupData exState 1).unit_index.length + (lookupData exState 1).data.length = 5
    ∧ (6 : Nat) ≠ 5
    ∧ (blob exState).take 30
      = u32le RESOURCE_VERSION_UNIT ++ u32le 1 ++ u32le 2
        ++ u32le 1 ++ u32le 1 ++ u32le 6 ++ u32le 0 ++ [7] ++ [0]
    ∧ (blob exState).drop 30 = u32le 2 ++ u32le 1 ++ u32le 8 ++ u32le 0 ++ [5, 5, 5, 5]
    ∧ (30 : Nat) % 4 ≠ 0 :=
  ⟨rfl, by decide, rfl, by decide, by decide, by decide, by decide, by decide⟩

theorem lookupAssoc_updateAssoc (f : ComponentTypeData → ComponentTypeData)
    (l : List (Nat × ComponentTypeData)) (t t' : Nat) :
    lookupAssoc (updateAssoc f l t) t'
      = if t' = t then (lookupAssoc l t').map f else lookupAssoc l t' := by
  induction l with
  | nil => simp [updateAssoc, lookupAssoc]
  | cons kv rest ih =>
    cases kv with
    | mk k v =>
      by_cases hkt : k = t
      · subst hkt
        by_cases hk' : k = t'
        · subst hk'
          simp [updateAssoc, lookupAssoc]
        · rw [updateAssoc, if_pos rfl, lookupAssoc, if_neg hk', lookupAssoc, if_neg hk',
            if_neg (fun he => hk' he.symm)]
      · rw [updateAssoc, if_neg hkt]
        by_cases hk' : k = t'
        · subst hk'
          rw [lookupAssoc, if_pos rfl, lookupAssoc, if_pos rfl, if_neg hkt]
        · rw [lookupAssoc, if_neg hk', lookupAssoc, if_neg hk', ih]

/-- `add_component_data` appends the encoded bytes and the owner index of
the new instance to the type's accumulators and bumps the count; other
types are untouched (and an unregistered type is dropped: the C++ mutates
the default temporary). -/
theorem add_component_data_spec (s : UnitCompilerState) (t : Nat) (buf : List Nat)
    (u : Nat) (ctd : ComponentTypeData)
    (h : lookupAssoc s.component_data t = some ctd) :
    (lookupData (add_component_data s t buf u) t).data = (lookupData s t).data ++ buf
    ∧ (lookupData (add_component_data s t buf u) t).unit_index
        = (lookupData s t).unit_index ++ [u]
    ∧ (lookupData (add_component_data s t buf u) t).num = (lookupData s t).num + 1
    ∧ (∀ t', t' ≠ t → lookupData (add_component_data s t buf u) t' = lookupData s t')
    ∧ (add_component_data s t buf u).num_units = s.num_units
    ∧ (add_component_data s t buf u).component_info = s.component_info := by
  refine ⟨?_, ?_, ?_, ?_, rfl, rfl⟩ <;>
    simp [lookupData, add_component_data, lookupAssoc_updateAssoc, h]
  intro t' ht'
  rw [if_neg ht']

/-- C2 [corrected] — Reading the blob back with the claim's procedure
recovers the header and, for every emitted type in order: the instance
count, the owner-index sequence, and as payload the accumulated encoder
bytes followed by `(owner bytes + payload bytes) % 4` zero padding bytes
(`sectionView`) — identical to what the encoders produced exactly when each
type's total byte count is a multiple of 4 (see the counterexample; the
accumulated `data` is the in-order concatenation of the encoder outputs by
`add_component_data_spec`). -/
theorem blob_roundtrip_padded (s : UnitCompilerState) (h : CompilerWF s) :
    readBlob (blob s)
      = some { version := RESOURCE_VERSION_UNIT, num_units := s.num_units,
               sections := (sectionTypes s).map (sectionView s) } := by
  have hblob := blob_eq_sections s h
  have hcnt : (sectionTypes s).length < 2 ^ 32 := by
    have h1 : (sectionTypes s).length ≤ s.component_info.length :=
      List.length_filter_le _ _
    have h2 : s.component_info.length = (s.component_data.map Prod.fst).length :=
      h.1.length_eq
    have h3 := h.2.2.2.2.2
    rw [List.length_map] at h2
    omega
  have hsecs := readSections_flatMap s h (sectionTypes s) [] (fun t ht => ht)
  rw [List.append_nil] at hsecs
  rw [hblob, readBlob]
  simp only [List.append_assoc]
  rw [readU32_u32le _ _ (by decide)]
  simp only []
  rw [readU32_u32le _ _ h.2.2.2.2.1]
  simp only []
  rw [readU32_u32le _ _ hcnt]
  simp only []
  rw [hsecs]

theorem blob_roundtrip_padded_witness :
    readBlob (blob exState)
      = some { version := RESOURCE_VERSION_UNIT, num_units := exState.num_units,
               sections := (sectionTypes exState).map (sectionView exState) } :=
  blob_roundtrip_padded exState (by decide)

/-- C2 counterexample — for unit `exDoc`, type 1's encoder produced `[7]`
and the accumulated payload buffer is `[7]`, but reading the blob back
yields payload `[7, 0]` for that type: the padding byte is inside the
section-size field, so the re-read payload is not identical to what the
encoder produced (while the instance counts and owner-index sequences do
round-trip). -/
theorem blob_roundtrip_payload_cex :
    (compile_unit_from_json exEnv exRegistered exDoc).1 = Except.ok ()
    ∧ exEncoderA 0 = Except.ok [7]
    ∧ (lookupData exState 1).data = [7]
    ∧ (readBlob (blob exState)).map (fun v => v.sections.map (fun sec => sec.payload))
      = some [[7, 0], [5, 5, 5, 5]]
    ∧ ([7, 0] : List Nat) ≠ [7]
    ∧ (readBlob (blob exState)).map
        (fun v => v.sections.map (fun sec => (sec.type, sec.num_instances, sec.owners)))
      = some [(1, 1, [0]), (2, 1, [0])]
    ∧ (lookupData exState 1).num = 1 ∧ (lookupData exState 1).unit_index = [0]
    ∧ (lookupData exState 2).num = 1 ∧ (lookupData exState 2).unit_index = [0] :=
  ⟨rfl, rfl, rfl, by decide, by decide, by decide, rfl, rfl, rfl, rfl⟩

theorem component_index_go_lt (g : Nat) (l : List ComponentJson) (i idx : Nat)
    (h : component_index_go g l i = some idx) : idx < i + l.length := by
  induction l generalizing i with
  | nil => simp [component_index_go] at h
  | cons c rest ih =>
    rw [component_index_go] at h
    by_cases hc : c.id = g
    · rw [if_pos hc] at h
      cases h
      simp
    · rw [if_neg hc] at h
      have := ih (i + 1) h
      simp only [List.length_cons]
      omega

theorem component_index_lt (comps : List ComponentJson) (g idx : Nat)
    (h : component_index comps g = some idx) : idx < comps.length := by
  have := component_index_go_lt g comps 0 idx h
  omega

theorem apply_modified_length (orig : List ComponentJson)
    (mods : List (Nat × ComponentJson)) :
    ∀ w : List ComponentJson, (apply_modified orig w mods).length = w.length := by
  induction mods with
  | nil => intro w; rfl
  | cons gv rest ih =>
    intro w
    cases gv with
    | mk g v =>
      rw [apply_modified]
      cases component_index orig g with
      | none => exact ih w
      | some j => rw [ih (w.set j v), List.length_set]

/-- The slot of the working copy after one level's overrides: the last
override targeting it, if any, else the previous value. -/
theorem apply_modified_getD (orig : List ComponentJson)
    (mods : List (Nat × ComponentJson)) :
    ∀ (w : List ComponentJson) (d : ComponentJson) (idx : Nat), idx < w.length →
    (apply_modified orig w mods).getD idx d
      = ((writesTo orig mods idx).getLast?).getD (w.getD idx d) := by
  induction mods with
  | nil =>
    intro w d idx h
    simp [apply_modified, writesTo]
  | cons gv rest ih =>
    intro w d idx h
    cases gv with
    | mk g v =>
      rw [apply_modified, writesTo]
      cases hci : component_index orig g with
      | none =>
        rw [if_neg (by simp [hci])]
        exact ih w d idx h
      | some j =>
        by_cases hj : j = idx
        · subst hj
          rw [if_pos rfl]
          have hlen : j < (w.set j v).length := by simpa using h
          rw [ih (w.set j v) d j hlen, getD_set_self d h]
          cases hrest : writesTo orig rest j with
          | nil => simp
          | cons w1 ws =>
            rw [List.getLast?_cons_cons]
            obtain ⟨z, hz⟩ := Option.isSome_iff_exists.mp
              (List.getLast?_isSome.mpr (List.cons_ne_nil w1 ws))
            rw [hz]
            rfl
        · rw [if_neg (fun he => hj (by injection he))]
          have hlen : idx < (w.set j v).length := by simpa using h
          rw [ih (w.set j v) d idx hlen, getD_set_ne d hj]

/-- The slot after applying a sequence of levels: the last override
targeting it across the concatenation, if any, else the baseline value. -/
theorem foldl_apply_getD (orig : List ComponentJson) (levels : List UnitJson) :
    ∀ (w : List ComponentJson) (d : ComponentJson) (idx : Nat), idx < w.length →
    (levels.foldl (fun working p => apply_modified orig working p.modified_components) w).getD idx d
      = ((levels.flatMap (fun p => writesTo orig p.modified_components idx)).getLast?).getD
          (w.getD idx d) := by
  induction levels with
  | nil =>
    intro w d idx h
    simp
  | cons p rest ih =>
    intro w d idx h
    rw [List.foldl_cons, List.flatMap_cons]
    have hlen : idx < (apply_modified orig w p.modified_components).length := by
      rw [apply_modified_length]
      exact h
    rw [ih _ d idx hlen, apply_modified_getD orig _ w d idx h]
    cases hr : rest.flatMap (fun p => writesTo orig p.modified_components idx) with
    | nil => simp
    | cons x xs =>
      rw [List.getLast?_append_of_ne_nil _ (List.cons_ne_nil x xs)]
      obtain ⟨z, hz⟩ := Option.isSome_iff_exists.mp
        (List.getLast?_isSome.mpr (List.cons_ne_nil x xs))
      rw [hz]
      rfl

/-- C7 [confirmed] — In a prefab chain (leaf first, ultimate ancestor
last), if an ancestor level `a` overrides the component with GUID `g` (a
baseline component at slot `idx`), a more-specific level `b < a` also
overrides it (its last override touching that slot being `pb`), and no
level more specific than `b` touches that slot, then the resolved flattened
component list holds `pb` in that slot: the leaf-most override wins,
because levels are applied base-to-specific. -/
theorem prefab_leafmost_override_wins
    (chain : List UnitJson) (a b idx g : Nat) (pa pb : ComponentJson)
    (hlen : 1 < chain.length) (hab : b < a) (ha : a < chain.length)
    (hidx : component_index (chain.getLastD default).components g = some idx)
    (_hpa : (g, pa) ∈ (chain.getD a default).modified_components)
    (hpb : (writesTo (chain.getLastD default).components
        (chain.getD b default).modified_components idx).getLast? = some pb)
    (hnone : ∀ k, k < b →
      writesTo (chain.getLastD default).components
        (chain.getD k default).modified_components idx = []) :
    (merge_chain chain).getD idx default = pb := by
  have hb : b < chain.length := lt_trans hab ha
  have hidxlen : idx < (chain.getLastD default).components.length :=
    component_index_lt _ _ _ hidx
  simp only [merge_chain, if_pos hlen]
  rw [foldl_apply_getD _ chain.reverse _ default idx hidxlen]
  have hsome : chain[b]? = some (chain.getD b default) := by
    rw [List.getElem?_eq_getElem hb, List.getD_eq_getElem chain default hb]
  have hsplit : chain.reverse
      = (chain.drop (b + 1)).reverse ++ (chain.getD b default :: (chain.take b).reverse) := by
    conv_lhs => rw [← List.take_append_drop (b + 1) chain]
    rw [List.reverse_append, List.take_succ, hsome]
    simp [List.reverse_append]
  rw [hsplit, List.flatMap_append, List.flatMap_cons]
  have htake : (chain.take b).reverse.flatMap
      (fun p => writesTo (chain.getLastD default).components p.modified_components idx)
        = [] := by
    apply List.flatMap_eq_nil_iff.mpr
    intro p hp
    rw [List.mem_reverse] at hp
    obtain ⟨i, hi, hpi⟩ := List.getElem_of_mem hp
    have hib : i < b := by
      have := hi
      rw [List.length_take] at this
      omega
    have hchain_i : chain.getD i default = p := by
      rw [List.getD_eq_getElem chain default (lt_trans hib hb), ← hpi, List.getElem_take]
    rw [← hchain_i]
    exact hnone i hib
  rw [htake, List.append_nil]
  have hne : writesTo (chain.getLastD default).components
      (chain.getD b default).modified_components idx ≠ [] := by
    intro hnil
    rw [hnil] at hpb
    simp at hpb
  rw [List.getLast?_append_of_ne_nil _ hne, hpb]
  rfl

theorem prefab_leafmost_override_wins_witness :
    ((2, exXGrand) ∈ (exChain.getD 2 default).modified_components
    ∧ (writesTo (exChain.getLastD default).components
        (exChain.getD 1 default).modified_components 1).getLast? = some exXParent
    ∧ (merge_chain exChain).getD 1 default = exXParent) :=
  ⟨by decide, by decide,
    prefab_leafmost_override_wins exChain 2 1 1 2 exXGrand exXParent (by decide) (by decide)
      (by decide) (by decide) (by decide) (by decide)
      (by
        intro k hk
        have hk0 : k = 0 := by omega
        subst hk0
        decide)⟩

/-- `add_component_data` does not change which components compile:
registration membership and the stored compile functions are unchanged. -/
theorem compile_component_stable (s : UnitCompilerState) (t : Nat) (buf : List Nat)
    (u : Nat) (t' j : Nat) :
    compile_component (add_component_data s t buf u) t' j = compile_component s t' j := by
  simp only [compile_component, add_component_data, lookupAssoc_updateAssoc]
  by_cases he : t' = t
  · rw [if_pos he]
    cases lookupAssoc s.component_data t' <;> rfl
  · rw [if_neg he]

theorem compile_component_unknown (s : UnitCompilerState) (t j : Nat)
    (h : lookupAssoc s.component_data t = none) :
    compile_component s t j = Except.error CompileError.unknownComponent := by
  unfold compile_component
  rw [h]

theorem compile_components_cons_ok (s : UnitCompilerState) (p : ComponentJson)
    (rest : List ComponentJson) (buf : List Nat)
    (h : compile_component s p.ctype p.data = Except.ok buf) :
    compile_components s (p :: rest)
      = compile_components (add_component_data s p.ctype buf s.num_units) rest := by
  rw [compile_components, h]

theorem compile_components_cons_error (s : UnitCompilerState) (p : ComponentJson)
    (rest : List ComponentJson) (e : CompileError)
    (h : compile_component s p.ctype p.data = Except.error e) :
    compile_components s (p :: rest) = (Except.error e, s) := by
  rw [compile_components, h]

/-- Compiling `pre ++ c :: post` where every component of `pre` compiles
and `c`'s type is unregistered: the run aborts with the unknown-component
error, the state at the abort is exactly the state after compiling `pre`
(whose data has been appended), and the unit counter has not moved. -/
theorem compile_components_stops_at_unknown (pre : List ComponentJson) :
    ∀ (s : UnitCompilerState) (c : ComponentJson) (post : List ComponentJson),
    lookupAssoc s.component_data c.ctype = none →
    (∀ comp ∈ pre, compileOk (compile_component s comp.ctype comp.data) = true) →
    compile_components s (pre ++ c :: post)
      = (Except.error CompileError.unknownComponent, (compile_components s pre).2)
    ∧ (compile_components s pre).1 = Except.ok ()
    ∧ (compile_components s pre).2.num_units = s.num_units := by
  induction pre with
  | nil =>
    intro s c post hc hpre
    refine ⟨?_, rfl, rfl⟩
    rw [List.nil_append,
      compile_components_cons_error s c post _ (compile_component_unknown s c.ctype c.data hc)]
    rfl
  | cons p pre' ih =>
    intro s c post hc hpre
    have hp := hpre p (List.mem_cons_self p pre')
    cases hcc : compile_component s p.ctype p.data with
    | error e =>
      rw [hcc] at hp
      exact absurd hp (by simp [compileOk])
    | ok buf =>
      have hsome : lookupAssoc s.component_data p.ctype ≠ none := by
        intro hn
        rw [compile_component_unknown s p.ctype p.data hn] at hcc
        cases hcc
      have hc1 : lookupAssoc (add_component_data s p.ctype buf s.num_units).component_data c.ctype
          = none := by
        simp only [add_component_data, lookupAssoc_updateAssoc]
        by_cases he : c.ctype = p.ctype
        · exact absurd (he ▸ hc) hsome
        · rw [if_neg he]
          exact hc
      have hpre1 : ∀ comp ∈ pre',
          compileOk (compile_component (add_component_data s p.ctype buf s.num_units)
            comp.ctype comp.data) = true := by
        intro comp hm
        rw [compile_component_stable]
        exact hpre comp (List.mem_cons_of_mem p hm)
      obtain ⟨h1, h2, h3⟩ := ih (add_component_data s p.ctype buf s.num_units) c post hc1 hpre1
      rw [List.cons_append, compile_components_cons_ok s p _ buf hcc,
        compile_components_cons_ok s p pre' buf hcc]
      exact ⟨h1, h2, h3⟩

/-- C8 [corrected] — Compiling a unit whose merged component list is
`pre ++ c :: post`, where every component of `pre` compiles and `c`'s type
name is unregistered, aborts with the `"Unknown component"` content error;
the accumulator state at the abort is exactly the state after appending the
data of the unit's earlier components `pre` (so partial data for the unit
remains appended whenever `pre` is nonempty — see the counterexample), no
data for `c` or the following components is appended, and the unit counter
is not advanced. -/
theorem compile_unit_unknown_component_keeps_pre (env : Nat → Option UnitJson)
    (s : UnitCompilerState) (doc : UnitJson) (ch : List UnitJson)
    (pre post : List ComponentJson) (c : ComponentJson)
    (hchain : collect_prefabs env doc = Except.ok ch)
    (hmerge : merge_chain ch = pre ++ c :: post)
    (hunknown : lookupAssoc s.component_data c.ctype = none)
    (hpre : ∀ comp ∈ pre, compileOk (compile_component s comp.ctype comp.data) = true) :
    compile_unit_from_json env s doc
      = (Except.error CompileError.unknownComponent, (compile_components s pre).2)
    ∧ (compile_components s pre).1 = Except.ok ()
    ∧ (compile_components s pre).2.num_units = s.num_units := by
  obtain ⟨h1, h2, h3⟩ := compile_components_stops_at_unknown pre s c post hunknown hpre
  refine ⟨?_, h2, h3⟩
  rw [compile_unit_from_json, hchain]
  simp only []
  rw [hmerge, h1]

theorem compile_unit_unknown_component_keeps_pre_witness :
    (compile_unit_from_json exEnv exRegisteredC exDocBad
      = (Except.error CompileError.unknownComponent,
          (compile_components exRegisteredC [exGood]).2)
    ∧ (compile_components exRegisteredC [exGood]).1 = Except.ok ()
    ∧ (compile_components exRegisteredC [exGood]).2.num_units = exRegisteredC.num_units) :=
  compile_unit_unknown_component_keeps_pre exEnv exRegisteredC exDocBad [exDocBad]
    [exGood] [] exBad rfl rfl rfl (by decide)

/-- C8 counterexample — the claim as stated is false on the code: compiling
`exDocBad` (a valid type-1 component, then an unknown-type component)
aborts with the content error, but the accumulators are not "as if the unit
had never been compiled": type 1 has one instance with the encoder's four
bytes and owner index 0 appended, whereas before the call it had none. -/
theorem compile_unit_unknown_component_cex :
    (compile_unit_from_json exEnv exRegisteredC exDocBad).1
      = Except.error CompileError.unknownComponent
    ∧ (lookupData (compile_unit_from_json exEnv exRegisteredC exDocBad).2 1).num = 1
    ∧ (lookupData (compile_unit_from_json exEnv exRegisteredC exDocBad).2 1).data = [9, 9, 9, 9]
    ∧ (lookupData (compile_unit_from_json exEnv exRegisteredC exDocBad).2 1).unit_index = [0]
    ∧ (lookupData exRegisteredC 1).num = 0
    ∧ (lookupData exRegisteredC 1).data = [] :=
  ⟨rfl, rfl, rfl, rfl, rfl, rfl⟩

/-- C9 [code_bug] — On a five-document prefab chain (leaf plus four
ancestors, so `prefabs[0..3]` all carry a `prefab` field) the loop reaches
`i == 3` with a prefab still present and the C++ parses into `prefabs[4]`,
one past the end of the fixed `JsonObject prefabs[4]` array: an
out-of-bounds write (undefined behavior), with no depth check and no
content/configuration error — the model's `outOfBoundsPrefabSlot` outcome
marks exactly that access.  A four-document chain is the deepest that
resolves without it. -/
theorem prefab_chain_depth_code_bug :
    collect_prefabs exEnvChain exDeepLeaf = Except.error CompileError.outOfBoundsPrefabSlot
    ∧ compile_unit_from_json exEnvChain exRegisteredC exDeepLeaf
        = (Except.error CompileError.outOfBoundsPrefabSlot, exRegisteredC)
    ∧ collect_prefabs exEnvChain exU1 = Except.ok [exU1, exU2, exU3, exU4] :=
  ⟨rfl, rfl, rfl⟩

end Crown
